import Mathlib

/-!
Verification of the cluster-reference resolution and timing-metric
derivation pipeline of `htcondor_job_time_analysis` (file
`src/htcondor_job_time_analysis/pull.py`).

The embedding below translates the Python source directly:

* `lookupSched` embeds the scheduler lookup inside `__clusters_expand`
  (exact dict-key membership, then the substring-alias fallback
  `[m for m in lut if schedname in m]`).
* `expandOne` / `expandMany` embed the per-argument body and the loop of
  `__clusters_expand`.
* `extract` embeds the history-query loop of `acquire_timing`, with the
  external `schedd.history` call abstracted as an oracle
  `hist : Int → SchedDesc → List RawJobRecord`.
* `derive` embeds the pandas column arithmetic at the end of
  `acquire_timing`; a missing value (pandas NaN) is `Option.none`,
  NaN-propagating subtraction/addition are `osub`/`oadd`, and
  `.fillna(0)` is `fillna0`.
* `acquireEvents` records, next to the result of `acquire_timing`, the
  list of history queries issued, in the order the code issues them:
  the code computes `__clusters_expand(*args)` first (any exception
  propagates immediately) and only then enters the query loop.

Python's `str.isdigit` and `int(...)` are modelled over ASCII decimal
digits (`pyIsdigit`, `pyIntOfDigits`), and Python's `str(n)` for a
natural number is `pyStr`.  Python dict keys are unique, so filtering
dict entries by a key predicate and then indexing the dict coincides
with filtering the key list; `lookupSched` filters entries directly.
-/

namespace HTCondor

/-- A scheduler descriptor as stored in `__clusters_expand.__schedd_lut__`:
the classad returned by the collector, keyed by its `Machine` name.
Opaque here; only the key matters to the resolver. -/
structure SchedDesc where
  machine : String
deriving DecidableEq, Repr

/-- The scheduler directory `__schedd_lut__`: an insertion-ordered map from
machine name to descriptor (Python dicts preserve insertion order and have
unique keys). -/
abbrev Directory := List (String × SchedDesc)

/-- The failure modes raised by `__clusters_expand` (as `ValueError`s in the
source, distinguished here by their messages' content). -/
inductive ExpandError where
  | malformedReference (ref : String)
  | unknownScheduler (name : String)
  | ambiguousScheduler (name : String) (cands : List String)
deriving DecidableEq, Repr

/-- `startsWithL a b`: the character list `a` is an initial run of `b`. -/
def startsWithL : List Char → List Char → Bool
  | [], _ => true
  | _ :: _, [] => false
  | a :: as, b :: bs => a == b && startsWithL as bs

/-- `containsL needle hay`: some tail of `hay` starts with `needle`. -/
def containsL (needle : List Char) : List Char → Bool
  | [] => startsWithL needle []
  | b :: bs => startsWithL needle (b :: bs) || containsL needle bs

/-- Python's substring containment `needle in hay` for strings. -/
def strIn (needle hay : String) : Bool :=
  containsL needle.toList hay.toList

/-- Python's `str.isdigit` (ASCII digits) on a character list: nonempty and
every character a decimal digit. -/
def isdigitL (cs : List Char) : Bool :=
  !cs.isEmpty && cs.all Char.isDigit

/-- Python's `str.isdigit` (ASCII digits). -/
def pyIsdigit (s : String) : Bool :=
  isdigitL s.toList

/-- Python's `s.split(':')` on the character list of `s`: always at least
one part, with empty parts kept (so `"5:"` splits into `["5", ""]` and
`""` splits into `[""]`). -/
def splitColon : List Char → List (List Char)
  | [] => [[]]
  | c :: cs =>
      if c = ':' then [] :: splitColon cs
      else
        match splitColon cs with
        | [] => [[c]]
        | p :: ps => (c :: p) :: ps

/-- Decimal value of a list of digit characters (big-endian), as computed by
Python's `int(...)` on an all-digit string. -/
def digitsVal (cs : List Char) : Nat :=
  cs.foldl (fun a c => 10 * a + (c.toNat - 48)) 0

/-- Python's `int(s)` for an all-digit string `s`. -/
def pyIntOfDigits (s : String) : Nat :=
  digitsVal s.toList

/-- Digit characters of `n` (big-endian), with explicit fuel for
termination; any `fuel > n` yields the full decimal expansion. -/
def natDigitsAux : Nat → Nat → List Char
  | 0, _ => []
  | fuel + 1, n =>
      if n < 10 then [Nat.digitChar n]
      else natDigitsAux fuel (n / 10) ++ [Nat.digitChar (n % 10)]

/-- Python's `str(n)` for a natural number `n`. -/
def pyStr (n : Nat) : String :=
  ⟨natDigitsAux (n + 1) n⟩

/-- The scheduler lookup of `__clusters_expand`: exact key membership in the
directory first; otherwise the substring-alias fallback collecting every
entry whose key contains the name, failing on zero or several matches. -/
def lookupSched (dir : Directory) (name : String) : Except ExpandError SchedDesc :=
  match dir.find? (fun p => p.1 == name) with
  | some p => .ok p.2
  | none =>
      match dir.filter (fun p => strIn name p.1) with
      | [] => .error (.unknownScheduler name)
      | [p] => .ok p.2
      | ms => .error (.ambiguousScheduler name (ms.map Prod.fst))

/-- A user-supplied cluster reference: a bare integer or a string
(`__clusters_expand` raises `TypeError` on anything else, which the
inductive excludes by construction). -/
inductive Ref where
  | int (n : Int)
  | str (s : String)
deriving DecidableEq, Repr

/-- The body of `__clusters_expand`'s loop for one argument: an integer or
all-digit string takes the current host as scheduler name; otherwise the
string must split on `:` into exactly two parts with an all-digit first
part.  The chosen scheduler name then goes through `lookupSched`. -/
def expandOne (dir : Directory) (localHost : String) (ref : Ref) :
    Except ExpandError (Int × SchedDesc) :=
  match ref with
  | .int n => (lookupSched dir localHost).map (fun d => (n, d))
  | .str s =>
      if pyIsdigit s then
        (lookupSched dir localHost).map (fun d => ((pyIntOfDigits s : Int), d))
      else
        match splitColon s.toList with
        | [p0, p1] =>
            if isdigitL p0 then
              (lookupSched dir ⟨p1⟩).map (fun d => ((digitsVal p0 : Int), d))
            else .error (.malformedReference s)
        | _ => .error (.malformedReference s)

/-- `__clusters_expand` over the whole argument list: left-to-right, and the
first raised exception aborts the call (no partial list escapes). -/
def expandMany (dir : Directory) (localHost : String) :
    List Ref → Except ExpandError (List (Int × SchedDesc))
  | [] => .ok []
  | r :: rs =>
      match expandOne dir localHost r with
      | .error e => .error e
      | .ok c =>
          match expandMany dir localHost rs with
          | .error e => .error e
          | .ok cs => .ok (c :: cs)

/-- One raw history record: the projection of a job's classad onto the
fields of `items_of_interest`; `h.get(k)` yields `none` when the field is
absent.  Timestamps are epoch seconds. -/
structure RawJobRecord where
  ClusterId : Option Int
  ProcId : Option Int
  ExitCode : Option Int
  QDate : Option Int
  TransferInputSizeMB : Option Int
  JobStartDate : Option Int
  TransferInQueued : Option Int
  TransferInStarted : Option Int
  TransferInFinished : Option Int
  TransferOutQueued : Option Int
  TransferOutStarted : Option Int
  TransferOutFinished : Option Int
  BytesSent : Option Int
deriving DecidableEq, Repr

/-- Pandas subtraction of two possibly-missing values: NaN propagates. -/
def osub (a b : Option Int) : Option Int :=
  match a, b with
  | some x, some y => some (x - y)
  | _, _ => none

/-- Pandas addition of two possibly-missing values: NaN propagates. -/
def oadd (a b : Option Int) : Option Int :=
  match a, b with
  | some x, some y => some (x + y)
  | _, _ => none

/-- Pandas `.fillna(0)`: a missing value becomes `0`, so the result is
always present. -/
def fillna0 (a : Option Int) : Option Int :=
  some (a.getD 0)

/-- A raw record together with the derived duration columns appended by
`acquire_timing`. -/
structure JobTimingRow extends RawJobRecord where
  JobTime : Option Int
  TransferIn : Option Int
  TransferInQueueTime : Option Int
  TransferOut : Option Int
  TransferOutQueueTime : Option Int
  TransferTime : Option Int
  ExecuteTime : Option Int
deriving DecidableEq, Repr

/-- The column arithmetic at the end of `acquire_timing`, per row (pandas
column operations act elementwise on rows):

    df[JobTime]    = df[TransferOutFinished] - df[JobStartDate]
    df[TransferD]  = df[TransferDFinished] - df[TransferDStarted]
    df[TransferDQueueTime] = (df[TransferDStarted] - df[TransferDQueued]).fillna(0)
    df[TransferTime] = TransferIn + TransferOut + TransferInQueueTime + TransferOutQueueTime
    df[ExecuteTime]  = df[TransferOutStarted] - df[TransferInFinished]
-/
def derive (r : RawJobRecord) : JobTimingRow :=
  let jobTime := osub r.TransferOutFinished r.JobStartDate
  let tIn := osub r.TransferInFinished r.TransferInStarted
  let tInQ := fillna0 (osub r.TransferInStarted r.TransferInQueued)
  let tOut := osub r.TransferOutFinished r.TransferOutStarted
  let tOutQ := fillna0 (osub r.TransferOutStarted r.TransferOutQueued)
  let tTime := oadd (oadd (oadd tIn tOut) tInQ) tOutQ
  let execT := osub r.TransferOutStarted r.TransferInFinished
  { r with
    JobTime := jobTime
    TransferIn := tIn
    TransferInQueueTime := tInQ
    TransferOut := tOut
    TransferOutQueueTime := tOutQ
    TransferTime := tTime
    ExecuteTime := execT }

/-- Derivation over the whole table: the pandas column operations are
elementwise, so the table transform is the per-row map of `derive`. -/
def deriveTable (df : List RawJobRecord) : List JobTimingRow :=
  df.map derive

/-- The history-query loop of `acquire_timing`: one query per resolved
cluster, in the order of the resolved list, appending each query's records
in the order the query returns them.  `hist` is the external
`schedd.history` oracle. -/
def extract (hist : Int → SchedDesc → List RawJobRecord)
    (resolved : List (Int × SchedDesc)) : List RawJobRecord :=
  (resolved.map (fun c => hist c.1 c.2)).flatten

/-- `acquire_timing`: expand the references, pull history for each resolved
cluster, derive the timing columns. -/
def acquire_timing (dir : Directory) (localHost : String)
    (hist : Int → SchedDesc → List RawJobRecord) (args : List Ref) :
    Except ExpandError (List JobTimingRow) :=
  (expandMany dir localHost args).map (fun clusters =>
    deriveTable (extract hist clusters))

/-- `acquire_timing` instrumented with the list of history queries issued.
The source computes `clusters = __clusters_expand(*args)` before the query
loop, so an expansion failure propagates with no query issued; on success
the loop issues exactly one query per resolved cluster, in list order. -/
def acquireEvents (dir : Directory) (localHost : String)
    (hist : Int → SchedDesc → List RawJobRecord) (args : List Ref) :
    List (Int × SchedDesc) × Except ExpandError (List JobTimingRow) :=
  match expandMany dir localHost args with
  | .error e => ([], .error e)
  | .ok clusters => (clusters, .ok (deriveTable (extract hist clusters)))

instance {ε α : Type} [DecidableEq ε] [DecidableEq α] : DecidableEq (Except ε α) := fun
  | .ok a, .ok b =>
      if h : a = b then .isTrue (by rw [h]) else .isFalse (by intro hh; cases hh; exact h rfl)
  | .ok _, .error _ => .isFalse (by intro h; cases h)
  | .error _, .ok _ => .isFalse (by intro h; cases h)
  | .error e, .error f =>
      if h : e = f then .isTrue (by rw [h]) else .isFalse (by intro hh; cases hh; exact h rfl)

/-- The fully-populated raw record of the spec's worked example. -/
def exampleRecord : RawJobRecord :=
  { ClusterId := some 1, ProcId := some 0, ExitCode := some 0,
    QDate := some 0, TransferInputSizeMB := some 1, JobStartDate := some 10,
    TransferInQueued := some 10, TransferInStarted := some 12,
    TransferInFinished := some 15, TransferOutQueued := some 20,
    TransferOutStarted := some 20, TransferOutFinished := some 30,
    BytesSent := some 1 }

/-- The two-entry scheduler directory of the spec's alias example. -/
def exampleDir : Directory :=
  [("node-a", ⟨"node-a"⟩), ("node-ab", ⟨"node-ab"⟩)]

theorem osub_none_left (b : Option Int) : osub none b = none := by
  cases b <;> rfl

theorem osub_none_right (a : Option Int) : osub a none = none := by
  cases a <;> rfl

theorem oadd_none_left (b : Option Int) : oadd none b = none := by
  cases b <;> rfl

theorem oadd_none_right (a : Option Int) : oadd a none = none := by
  cases a <;> rfl

theorem derive_JobTime (r : RawJobRecord) :
    (derive r).JobTime = osub r.TransferOutFinished r.JobStartDate := rfl

theorem derive_TransferIn (r : RawJobRecord) :
    (derive r).TransferIn = osub r.TransferInFinished r.TransferInStarted := rfl

theorem derive_TransferInQueueTime (r : RawJobRecord) :
    (derive r).TransferInQueueTime =
      fillna0 (osub r.TransferInStarted r.TransferInQueued) := rfl

theorem derive_TransferOut (r : RawJobRecord) :
    (derive r).TransferOut = osub r.TransferOutFinished r.TransferOutStarted := rfl

theorem derive_TransferOutQueueTime (r : RawJobRecord) :
    (derive r).TransferOutQueueTime =
      fillna0 (osub r.TransferOutStarted r.TransferOutQueued) := rfl

theorem derive_TransferTime (r : RawJobRecord) :
    (derive r).TransferTime =
      oadd (oadd (oadd (osub r.TransferInFinished r.TransferInStarted)
                       (osub r.TransferOutFinished r.TransferOutStarted))
                 (fillna0 (osub r.TransferInStarted r.TransferInQueued)))
           (fillna0 (osub r.TransferOutStarted r.TransferOutQueued)) := rfl

theorem derive_ExecuteTime (r : RawJobRecord) :
    (derive r).ExecuteTime = osub r.TransferOutStarted r.TransferInFinished := rfl

/-- C1: `derive` is per-record (the table derivation maps it independently
over the rows, so each output row depends only on its own raw record), and
on the fully-populated example record it yields TransferIn=3,
TransferInQueueTime=2, TransferOut=10, TransferOutQueueTime=0,
TransferTime=15, ExecuteTime=5, JobTime=20. -/
theorem derive_independent_and_example :
    (∀ (pre post : List RawJobRecord) (r : RawJobRecord),
        deriveTable (pre ++ r :: post) =
          deriveTable pre ++ derive r :: deriveTable post)
    ∧ (derive exampleRecord).TransferIn = some 3
    ∧ (derive exampleRecord).TransferInQueueTime = some 2
    ∧ (derive exampleRecord).TransferOut = some 10
    ∧ (derive exampleRecord).TransferOutQueueTime = some 0
    ∧ (derive exampleRecord).TransferTime = some 15
    ∧ (derive exampleRecord).ExecuteTime = some 5
    ∧ (derive exampleRecord).JobTime = some 20 := by
  refine ⟨fun pre post r => ?_, by decide, by decide, by decide, by decide,
    by decide, by decide, by decide⟩
  simp [deriveTable]

/-- C3: a missing operand in the subtraction defining JobTime, TransferIn,
TransferOut or ExecuteTime (or feeding TransferTime through TransferIn or
TransferOut) makes that derived value missing, while the two QueueTime
columns are always defined and are the sole columns where a missing
operand yields 0. -/
theorem derive_missing_policy (r : RawJobRecord) :
    ((r.TransferOutFinished = none ∨ r.JobStartDate = none) →
        (derive r).JobTime = none)
    ∧ ((r.TransferInFinished = none ∨ r.TransferInStarted = none) →
        (derive r).TransferIn = none)
    ∧ ((r.TransferOutFinished = none ∨ r.TransferOutStarted = none) →
        (derive r).TransferOut = none)
    ∧ ((r.TransferOutStarted = none ∨ r.TransferInFinished = none) →
        (derive r).ExecuteTime = none)
    ∧ ((r.TransferInFinished = none ∨ r.TransferInStarted = none ∨
        r.TransferOutFinished = none ∨ r.TransferOutStarted = none) →
        (derive r).TransferTime = none)
    ∧ (∃ v, (derive r).TransferInQueueTime = some v)
    ∧ (∃ v, (derive r).TransferOutQueueTime = some v)
    ∧ ((r.TransferInStarted = none ∨ r.TransferInQueued = none) →
        (derive r).TransferInQueueTime = some 0)
    ∧ ((r.TransferOutStarted = none ∨ r.TransferOutQueued = none) →
        (derive r).TransferOutQueueTime = some 0) := by
  refine ⟨?_, ?_, ?_, ?_, ?_, ⟨_, rfl⟩, ⟨_, rfl⟩, ?_, ?_⟩
  · rintro (h | h) <;>
      simp [derive_JobTime, h, osub_none_left, osub_none_right]
  · rintro (h | h) <;>
      simp [derive_TransferIn, h, osub_none_left, osub_none_right]
  · rintro (h | h) <;>
      simp [derive_TransferOut, h, osub_none_left, osub_none_right]
  · rintro (h | h) <;>
      simp [derive_ExecuteTime, h, osub_none_left, osub_none_right]
  · rintro (h | h | h | h) <;>
      simp [derive_TransferTime, h, osub_none_left, osub_none_right,
        oadd_none_left, oadd_none_right]
  · rintro (h | h) <;>
      simp [derive_TransferInQueueTime, h, osub_none_left, osub_none_right,
        fillna0]
  · rintro (h | h) <;>
      simp [derive_TransferOutQueueTime, h, osub_none_left, osub_none_right,
        fillna0]

/-- Witness for `derive_missing_policy` at a concrete record. -/
theorem derive_missing_policy_witness :
    (derive { exampleRecord with TransferOutFinished := none }).JobTime = none :=
  (derive_missing_policy { exampleRecord with TransferOutFinished := none }).1
    (Or.inl rfl)

/-- A raw record with `TransferInStarted` absent and every other field
present, parameterised over the field values (non-timestamp fields stay
arbitrary and possibly absent). -/
def recNoTIS (cid pid ec sz bs : Option Int)
    (q jsd tiq tif toq tos tof : Int) : RawJobRecord :=
  { ClusterId := cid, ProcId := pid, ExitCode := ec, QDate := some q,
    TransferInputSizeMB := sz, JobStartDate := some jsd,
    TransferInQueued := some tiq, TransferInStarted := none,
    TransferInFinished := some tif, TransferOutQueued := some toq,
    TransferOutStarted := some tos, TransferOutFinished := some tof,
    BytesSent := bs }

/-- C4 counterexample: on the example record with only `TransferInStarted`
removed, `ExecuteTime` is defined (it is `TransferOutStarted -
TransferInFinished`, which does not involve `TransferInStarted`), so the
claim's "missing ExecuteTime" is false; TransferIn, TransferInQueueTime
and JobTime behave as the claim says. -/
theorem derive_missing_tis_cex :
    (derive { exampleRecord with TransferInStarted := none }).ExecuteTime = some 5
    ∧ ¬ (derive { exampleRecord with TransferInStarted := none }).ExecuteTime = none
    ∧ ({ exampleRecord with TransferInStarted := none } : RawJobRecord).TransferInStarted = none
    ∧ (derive { exampleRecord with TransferInStarted := none }).TransferIn = none
    ∧ (derive { exampleRecord with TransferInStarted := none }).TransferInQueueTime = some 0
    ∧ (derive { exampleRecord with TransferInStarted := none }).JobTime = some 20 := by
  decide

/-- C4 (amended): for every raw record in which `TransferInStarted` is
absent but all other timestamp fields are present, `derive` yields a
missing TransferIn, a defined ExecuteTime equal to TransferOutStarted -
TransferInFinished, a defined TransferInQueueTime equal to 0, and a
defined JobTime. -/
theorem derive_missing_tis (cid pid ec sz bs : Option Int)
    (q jsd tiq tif toq tos tof : Int) :
    (derive (recNoTIS cid pid ec sz bs q jsd tiq tif toq tos tof)).TransferIn = none
    ∧ (derive (recNoTIS cid pid ec sz bs q jsd tiq tif toq tos tof)).ExecuteTime
        = some (tos - tif)
    ∧ (derive (recNoTIS cid pid ec sz bs q jsd tiq tif toq tos tof)).TransferInQueueTime
        = some 0
    ∧ (derive (recNoTIS cid pid ec sz bs q jsd tiq tif toq tos tof)).JobTime
        = some (tof - jsd) :=
  ⟨rfl, rfl, rfl, rfl⟩

/-- C9: extraction concatenates each resolved cluster's history records in
resolved-list order (grouped by cluster, each group in query order), and a
cluster whose history query returns zero records contributes zero rows
without affecting the other clusters' rows or their order. -/
theorem extract_grouped_and_empty (hist : Int → SchedDesc → List RawJobRecord)
    (xs ys : List (Int × SchedDesc)) (c : Int × SchedDesc) :
    (extract hist (xs ++ ys) = extract hist xs ++ extract hist ys)
    ∧ (hist c.1 c.2 = [] →
        extract hist (xs ++ c :: ys) = extract hist xs ++ extract hist ys) := by
  constructor
  · simp [extract]
  · intro h
    simp [extract, h]

/-- Witness for `extract_grouped_and_empty` with a concrete empty history. -/
theorem extract_grouped_and_empty_witness :
    extract (fun _ _ => []) ([] ++ (1, SchedDesc.mk "h") :: []) =
      extract (fun _ _ => ([] : List RawJobRecord)) [] ++
        extract (fun _ _ => []) [] :=
  (extract_grouped_and_empty (fun _ _ => []) [] [] (1, ⟨"h"⟩)).2 rfl

/-- C7 counterexample: `__clusters_expand` accepts a bare negative integer
reference unchanged, so a ResolvedCluster can carry a negative cluster_id. -/
theorem expandOne_negative_cex :
    expandOne [("h", SchedDesc.mk "h")] "h" (.int (-1)) = .ok (-1, SchedDesc.mk "h")
    ∧ (-1 : Int) < 0 := by
  decide

/-- C7 (amended): every ResolvedCluster produced from a *string* reference
(all-digit string or "<id>:<name>" form) has cluster_id ≥ 0, while a bare
integer reference passes its value through unchanged (and may therefore be
negative). -/
theorem expandOne_clusterid (dir : Directory) (localHost : String) :
    (∀ s c, expandOne dir localHost (.str s) = .ok c → 0 ≤ c.1)
    ∧ (∀ (n : Int) c, expandOne dir localHost (.int n) = .ok c → c.1 = n) := by
  constructor
  · intro s c h
    simp only [expandOne] at h
    split at h
    · cases hl : lookupSched dir localHost <;> rw [hl] at h <;>
        simp [Except.map] at h
      rw [← h]
      exact Int.natCast_nonneg _
    · split at h
      · split at h
        · rename_i p0 p1 _ _
          cases hl : lookupSched dir ⟨p1⟩ <;> rw [hl] at h <;>
            simp [Except.map] at h
          rw [← h]
          exact Int.natCast_nonneg _
        · cases h
      · cases h
  · intro n c h
    simp only [expandOne] at h
    cases hl : lookupSched dir localHost <;> rw [hl] at h <;>
      simp [Except.map] at h
    rw [← h]

/-- Witness for `expandOne_clusterid` at a concrete digit string. -/
theorem expandOne_clusterid_witness :
    (0 : Int) ≤ (((5 : Int), SchedDesc.mk "h")).1 :=
  (expandOne_clusterid [("h", SchedDesc.mk "h")] "h").1 "5"
    ((5 : Int), SchedDesc.mk "h") (by decide)

theorem find?_key_of_mem (dir : Directory) (name : String) (d : SchedDesc)
    (hnd : (dir.map Prod.fst).Nodup) (hmem : (name, d) ∈ dir) :
    dir.find? (fun q => q.1 == name) = some (name, d) := by
  induction dir with
  | nil => cases hmem
  | cons p rest ih =>
      by_cases hp : p.1 = name
      · have hfind : (p :: rest).find? (fun q => q.1 == name) = some p := by
          simp [List.find?_cons, hp]
        rcases List.mem_cons.mp hmem with h | h
        · rw [hfind, h]
        · exfalso
          have : name ∈ rest.map Prod.fst :=
            List.mem_map.mpr ⟨(name, d), h, rfl⟩
          have := (List.nodup_cons.mp hnd).1
          rw [hp] at this
          exact this ‹name ∈ rest.map Prod.fst›
      · have hstep : (p :: rest).find? (fun q => q.1 == name) =
            rest.find? (fun q => q.1 == name) := by
          simp [List.find?_cons, hp]
        rcases List.mem_cons.mp hmem with h | h
        · exact absurd (by rw [← h]) hp
        · rw [hstep]
          exact ih (List.nodup_cons.mp hnd).2 h

/-- C2: an exact directory key wins (so with keys node-a and node-ab the
name node-a resolves without ambiguity); when the exact lookup misses, the
substring matches decide the result: zero matches is UnknownScheduler, one
match returns that entry's descriptor, two or more is AmbiguousScheduler
carrying the candidate key list. -/
theorem lookupSched_spec (dir : Directory) (name : String) :
    ((dir.map Prod.fst).Nodup →
        ∀ d, (name, d) ∈ dir → lookupSched dir name = .ok d)
    ∧ (dir.find? (fun q => q.1 == name) = none →
        ((dir.filter (fun p => strIn name p.1) = [] →
            lookupSched dir name = .error (.unknownScheduler name))
         ∧ (∀ p, dir.filter (fun p => strIn name p.1) = [p] →
              lookupSched dir name = .ok p.2)
         ∧ (∀ p q rest,
              dir.filter (fun x => strIn name x.1) = p :: q :: rest →
              lookupSched dir name =
                .error (.ambiguousScheduler name
                  ((p :: q :: rest).map Prod.fst)))))
    ∧ lookupSched exampleDir "node-a" = .ok ⟨"node-a"⟩
    ∧ lookupSched exampleDir "node" =
        .error (.ambiguousScheduler "node" ["node-a", "node-ab"]) := by
  refine ⟨?_, ?_, by decide, by decide⟩
  · intro hnd d hmem
    simp [lookupSched, find?_key_of_mem dir name d hnd hmem]
  · intro hn
    refine ⟨?_, ?_, ?_⟩
    · intro h
      simp [lookupSched, hn, h]
    · intro p h
      simp [lookupSched, hn, h]
    · intro p q rest h
      simp [lookupSched, hn, h]

/-- Witness for `lookupSched_spec`: the exact-key branch on the example
directory. -/
theorem lookupSched_spec_witness :
    lookupSched exampleDir "node-a" = .ok (SchedDesc.mk "node-a") :=
  (lookupSched_spec exampleDir "node-a").1 (by decide) ⟨"node-a"⟩ (by decide)

/-- C5: a string reference that is not all digits must split on `:` into
exactly two parts with an all-digit first part, else `expandOne` fails with
a malformed-reference error; in particular "abc", "1:2:3" and "x:y" all
fail that way. -/
theorem expandOne_malformed (dir : Directory) (localHost : String) :
    (∀ s, pyIsdigit s = false →
        (∀ p0 p1, splitColon s.toList = [p0, p1] → isdigitL p0 = false →
            expandOne dir localHost (.str s) = .error (.malformedReference s))
        ∧ (∀ parts, splitColon s.toList = parts → parts.length ≠ 2 →
            expandOne dir localHost (.str s) = .error (.malformedReference s)))
    ∧ expandOne dir localHost (.str "abc") = .error (.malformedReference "abc")
    ∧ expandOne dir localHost (.str "1:2:3") =
        .error (.malformedReference "1:2:3")
    ∧ expandOne dir localHost (.str "x:y") = .error (.malformedReference "x:y") := by
  refine ⟨fun s hs => ⟨?_, ?_⟩, rfl, rfl, rfl⟩
  · intro p0 p1 hsplit hd
    have hs' : splitColon s.data = [p0, p1] := hsplit
    simp [expandOne, hs, hs', hd]
  · intro parts hsplit hlen
    have hs' : splitColon s.data = parts := hsplit
    rcases parts with _ | ⟨a, _ | ⟨b, _ | ⟨c, rest⟩⟩⟩
    · simp [expandOne, hs, hs']
    · simp [expandOne, hs, hs']
    · exact absurd rfl hlen
    · simp [expandOne, hs, hs']

/-- Witness for `expandOne_malformed` on the three-part reference. -/
theorem expandOne_malformed_witness :
    expandOne [] "h" (.str "1:2:3") = .error (.malformedReference "1:2:3") :=
  ((expandOne_malformed [] "h").1 "1:2:3" (by decide)).2
    (splitColon "1:2:3".toList) rfl (by decide)

theorem containsL_nil (l : List Char) : containsL [] l = true := by
  induction l with
  | nil => rfl
  | cons b bs ih => simp [containsL, startsWithL, ih]

theorem strIn_empty (h : String) : strIn "" h = true := by
  show containsL [] h.toList = true
  exact containsL_nil _

/-- C10 counterexample: a directory of two entries one of which is keyed
by the empty string resolves the reference "5:" through the exact-match
branch instead of failing with AmbiguousScheduler. -/
theorem expandOne_empty_alias_cex :
    expandOne [("", SchedDesc.mk "a"), ("x", SchedDesc.mk "b")] "h" (.str "5:") =
      .ok (5, SchedDesc.mk "a")
    ∧ ([("", SchedDesc.mk "a"), ("x", SchedDesc.mk "b")] : Directory).length = 2 := by
  decide

/-- C10 (amended): a reference of the form "<digits>:" parses, and the
empty alias — a substring of every key — resolves by the substring
fallback provided the empty string is not itself a directory key: with two
or more entries it fails with AmbiguousScheduler listing all keys, with
exactly one entry it resolves to that sole scheduler, and with an empty
directory it fails with UnknownScheduler. -/
theorem expandOne_empty_alias (dir : Directory) (localHost s : String)
    (p0 : List Char) (hsplit : splitColon s.toList = [p0, []])
    (hd : isdigitL p0 = true) (hnd : pyIsdigit s = false)
    (hkeys : ∀ p ∈ dir, p.1 ≠ "") :
    expandOne dir localHost (.str s) =
      match dir with
      | [] => .error (.unknownScheduler "")
      | [p] => .ok ((digitsVal p0 : Int), p.2)
      | _ => .error (.ambiguousScheduler "" (dir.map Prod.fst)) := by
  have hfind : dir.find? (fun p => p.1 == (⟨[]⟩ : String)) = none := by
    rw [List.find?_eq_none]
    intro p hp
    simpa using hkeys p hp
  have hfilter : dir.filter (fun p => strIn ⟨[]⟩ p.1) = dir :=
    List.filter_eq_self.mpr (fun p _ => strIn_empty p.1)
  have hlk : lookupSched dir ⟨[]⟩ =
      (match dir with
       | [] => .error (.unknownScheduler "")
       | [p] => .ok p.2
       | _ => .error (.ambiguousScheduler "" (dir.map Prod.fst))) := by
    unfold lookupSched
    rw [hfind, hfilter]
    rcases dir with _ | ⟨p, _ | ⟨q, rest⟩⟩ <;> rfl
  simp only [expandOne, hnd, Bool.false_eq_true, if_false, hsplit, hd, if_true]
  rw [hlk]
  rcases dir with _ | ⟨p, _ | ⟨q, rest⟩⟩ <;> rfl

/-- Witness for `expandOne_empty_alias`: with two ordinary keys the empty
alias is ambiguous, listing both. -/
theorem expandOne_empty_alias_witness :
    expandOne [("a", SchedDesc.mk "a"), ("b", SchedDesc.mk "b")] "h" (.str "5:") =
      .error (.ambiguousScheduler "" ["a", "b"]) :=
  expandOne_empty_alias [("a", SchedDesc.mk "a"), ("b", SchedDesc.mk "b")] "h"
    "5:" ['5'] (by decide) (by decide) (by decide) (by decide)

theorem digitChar_spec (d : Nat) (hd : d < 10) :
    (Nat.digitChar d).isDigit = true ∧ (Nat.digitChar d).toNat - 48 = d := by
  interval_cases d <;> exact ⟨by decide, by decide⟩

theorem digitsVal_append_single (xs : List Char) (c : Char) :
    digitsVal (xs ++ [c]) = 10 * digitsVal xs + (c.toNat - 48) := by
  simp [digitsVal, List.foldl_append]

theorem natDigitsAux_spec (fuel : Nat) :
    ∀ n, n < fuel →
      natDigitsAux fuel n ≠ [] ∧
      (natDigitsAux fuel n).all Char.isDigit = true ∧
      digitsVal (natDigitsAux fuel n) = n := by
  induction fuel with
  | zero => intro n h; omega
  | succ fuel ih =>
      intro n h
      by_cases h10 : n < 10
      · have hd := digitChar_spec n h10
        simp only [natDigitsAux, if_pos h10]
        refine ⟨by simp, by simp [hd.1], ?_⟩
        show 10 * 0 + ((Nat.digitChar n).toNat - 48) = n
        simp [hd.2]
      · have hlt : n / 10 < fuel :=
          lt_of_lt_of_le (Nat.div_lt_self (by omega) (by omega)) (by omega)
        obtain ⟨hne, hall, hval⟩ := ih (n / 10) hlt
        have hd := digitChar_spec (n % 10) (Nat.mod_lt _ (by omega))
        simp only [natDigitsAux, if_neg h10]
        refine ⟨by simp, by simp [List.all_append, hall, hd.1], ?_⟩
        rw [digitsVal_append_single, hval, hd.2]
        exact Nat.div_add_mod n 10

theorem pyStr_digits (n : Nat) :
    pyIsdigit (pyStr n) = true ∧ pyIntOfDigits (pyStr n) = n := by
  obtain ⟨hne, hall, hval⟩ := natDigitsAux_spec (n + 1) n (by omega)
  refine ⟨?_, hval⟩
  show isdigitL (natDigitsAux (n + 1) n) = true
  simp only [isdigitL, hall, Bool.and_true]
  simpa using hne

/-- C8: a bare integer reference `n`, and the all-digit decimal string of a
natural number `n`, both resolve to cluster_id `n` paired with the
scheduler obtained by looking the resolver's own host identifier up in the
directory (and so does every all-digit string, with its decimal value). -/
theorem expandOne_int_or_digits (dir : Directory) (localHost : String) :
    (∀ n : Int, expandOne dir localHost (.int n) =
        (lookupSched dir localHost).map (fun d => (n, d)))
    ∧ (∀ s, pyIsdigit s = true →
        expandOne dir localHost (.str s) =
          (lookupSched dir localHost).map (fun d => ((pyIntOfDigits s : Int), d)))
    ∧ (∀ n : Nat, expandOne dir localHost (.str (pyStr n)) =
        (lookupSched dir localHost).map (fun d => ((n : Int), d))) := by
  refine ⟨fun n => rfl, fun s hs => by simp [expandOne, hs], fun n => ?_⟩
  have h := pyStr_digits n
  simp [expandOne, h.1, h.2]

/-- Witness for `expandOne_int_or_digits` on the digit string "42". -/
theorem expandOne_int_or_digits_witness :
    expandOne [("h", SchedDesc.mk "h")] "h" (.str "42") =
      (lookupSched [("h", SchedDesc.mk "h")] "h").map
        (fun d => ((pyIntOfDigits "42" : Int), d)) :=
  (expandOne_int_or_digits [("h", SchedDesc.mk "h")] "h").2.1 "42" (by decide)

theorem expandMany_ok_spec (dir : Directory) (localHost : String) :
    ∀ (args : List Ref) (cs : List (Int × SchedDesc)),
      expandMany dir localHost args = .ok cs →
      cs.length = args.length ∧
      ∀ i (hi : i < args.length) (hc : i < cs.length),
        expandOne dir localHost (args.get ⟨i, hi⟩) = .ok (cs.get ⟨i, hc⟩) := by
  intro args
  induction args with
  | nil =>
      intro cs h
      cases h
      exact ⟨rfl, fun i hi => absurd hi (by simp)⟩
  | cons r rs ih =>
      intro cs h
      simp only [expandMany] at h
      cases he : expandOne dir localHost r <;> rw [he] at h
      · cases h
      · cases hm : expandMany dir localHost rs <;> rw [hm] at h
        · cases h
        · cases h
          obtain ⟨hlen, hpt⟩ := ih _ hm
          refine ⟨by simp [hlen], ?_⟩
          intro i hi hc
          cases i with
          | zero => exact he
          | succ i => exact hpt i (by simpa using hi) (by simpa using hc)

theorem expandMany_failfast (dir : Directory) (localHost : String) :
    ∀ (args : List Ref) (e : ExpandError) (i : Nat) (hi : i < args.length),
      (∀ j (hj : j < args.length), j < i →
          ∃ c, expandOne dir localHost (args.get ⟨j, hj⟩) = .ok c) →
      expandOne dir localHost (args.get ⟨i, hi⟩) = .error e →
      expandMany dir localHost args = .error e := by
  intro args
  induction args with
  | nil => intro e i hi; simp at hi
  | cons r rs ih =>
      intro e i hi hprev herr
      cases i with
      | zero =>
          have herr' : expandOne dir localHost r = .error e := herr
          simp only [expandMany]
          rw [herr']
      | succ i =>
          obtain ⟨c, hc⟩ := hprev 0 (by simp) (by omega)
          have hc' : expandOne dir localHost r = .ok c := hc
          have hrest : expandMany dir localHost rs = .error e := by
            refine ih e i (by simpa using hi) ?_ herr
            intro j hj hji
            exact hprev (j + 1) (by simpa using hj) (by omega)
          simp only [expandMany]
          rw [hc', hrest]

/-- C6: `expandMany` applies `expandOne` to each reference in input order
and preserves that order in the output; the first failing reference makes
the whole call fail with that failure and no partial list; and when
expansion fails, `acquire_timing` issues no history query at all (its
query trace is empty) and returns that failure. -/
theorem expandMany_spec (dir : Directory) (localHost : String)
    (hist : Int → SchedDesc → List RawJobRecord) (args : List Ref) :
    (∀ cs, expandMany dir localHost args = .ok cs → cs.length = args.length)
    ∧ (∀ cs, expandMany dir localHost args = .ok cs →
        ∀ i (hi : i < args.length) (hc : i < cs.length),
          expandOne dir localHost (args.get ⟨i, hi⟩) = .ok (cs.get ⟨i, hc⟩))
    ∧ (∀ (e : ExpandError) (i : Nat) (hi : i < args.length),
        (∀ j (hj : j < args.length), j < i →
            ∃ c, expandOne dir localHost (args.get ⟨j, hj⟩) = .ok c) →
        expandOne dir localHost (args.get ⟨i, hi⟩) = .error e →
        expandMany dir localHost args = .error e)
    ∧ (∀ e, expandMany dir localHost args = .error e →
        acquireEvents dir localHost hist args = ([], .error e)) := by
  refine ⟨fun cs h => (expandMany_ok_spec dir localHost args cs h).1,
    fun cs h => (expandMany_ok_spec dir localHost args cs h).2,
    expandMany_failfast dir localHost args,
    fun e h => by simp [acquireEvents, h]⟩

/-- Witness for `expandMany_spec`: a malformed first reference aborts the
whole expansion with that failure. -/
theorem expandMany_spec_witness :
    expandMany [("h", SchedDesc.mk "h")] "h" [Ref.str "abc"] =
      .error (.malformedReference "abc") :=
  (expandMany_spec [("h", SchedDesc.mk "h")] "h" (fun _ _ => [])
      [Ref.str "abc"]).2.2.1 (.malformedReference "abc") 0 (by decide)
    (fun j hj hji => absurd hji (by omega)) (by decide)

end HTCondor
